import Mathlib

/-!
# JetTest: the test engine of `src/app/cli.go`

A shallow embedding of the request builder (`jet.run`), the response checker
(`jet.check`, `body.checkResponseBody`, `test.validateRequestMethod`) and the
collector loop of `jet.test`, followed by the properties proved about them.

Conventions of the embedding:

* Go `string` is `String`; `int` and `time.Duration` (nanoseconds) are `Int`;
  the counters of `results` are `Nat` (they never exceed `len(ts)`).
* `map[string][]string` (`url.Values`, `http.Header`) is an association list.
* Go's `error` values are the inductive type `error`, one constructor per place
  of the source that creates one; `error.Error` renders the message.
* Everything the engine gets from outside the repository (the Unicode case
  tables, `url.QueryEscape`, `http.NewRequest`, `http.Client.Do`, `gjson.Get`)
  is a field of `World`.
-/

namespace JetTest

/-! ## Data model (`cli.go`, lines 31-97) -/

/-- The Go type `map[string][]string`, shared by `url.Values` and `http.Header`. -/
abbrev Values := List (String × List String)

/-- The struct `request`: everything required to make the test API request.
`Params` and `Headers` are `none` for a nil map. -/
structure request where
  Method : String
  Path : String
  Params : Option Values
  Headers : Option Values
  WithClientID : Bool
  WithAuthToken : Bool
  Body : String
deriving DecidableEq, Repr

/-- The struct `body`: a segment of the response body that is expected. -/
structure body where
  Path : String
  ExpectedValue : String
deriving DecidableEq, Repr

/-- The struct `expect`: the expectations of the API response. -/
structure expect where
  StatusCode : Int
  MaxLatency : Int
  Body : List body
deriving DecidableEq, Repr

/-- The struct `test`: one API test. -/
structure test where
  Name : String
  Request : request
  Expect : expect
deriving DecidableEq, Repr

/-- The part of `*http.Request` the engine sets: method, target, headers, payload. -/
structure Request where
  Method : String
  URL : String
  Header : Values
  Body : String
deriving DecidableEq, Repr

/-- The part of `*http.Response` the engine reads: the status code and the body
stream, `none` when `io.ReadAll` fails on it. -/
structure Response where
  StatusCode : Int
  Body : Option String
deriving DecidableEq, Repr

/-- Go `error` values built by the engine, one constructor per creation site. -/
inductive error where
  /-- Line 363: `http method '%s' is not supported`. -/
  | unsupportedMethod (method : String)
  /-- Lines 284 and 299: the error returned by `http.NewRequest` or `client.Do`. -/
  | external (msg : String)
  /-- Line 310: status code failure. -/
  | statusCode (expected received : Int)
  /-- Line 314: body parsing failure. -/
  | bodyParsing
  /-- Line 352: response body failure. -/
  | responseBody (path expected got : String)
  /-- Line 324: body for debugging. -/
  | debugBody (raw : String)
  /-- Line 325: request for debugging. -/
  | debugRequest (req : Request)
  /-- Line 326: response for debugging. -/
  | debugResponse (resp : Response)
  /-- Line 329: latency failure. -/
  | latency (max actual : Int)
deriving DecidableEq, Repr

/-- The struct `result`: the result from a test. -/
structure result where
  test : test
  errors : List error
deriving DecidableEq, Repr

/-- The struct `results`: the count of passed, failed, and total tests. -/
structure results where
  Passed : Nat
  Failed : Nat
  Total : Nat
deriving DecidableEq, Repr

/-- The struct `jet` without its HTTP client and channel, which are modelled by
`World.clientDo` and by the arrival list of `jet.test`. -/
structure jet where
  host : String
  clientID : String
  authToken : String
  debug : Bool
deriving DecidableEq, Repr

/-- What the engine calls outside the repository. -/
structure World where
  /-- The table `unicode.CaseRanges` as used by `unicode.To(unicode.UpperCase, r)`
  on the non-ASCII runes other than U+0131 and U+017F. -/
  caseRanges : Char → Char
  /-- The function `url.QueryEscape`. -/
  queryEscape : String → String
  /-- The error of `http.NewRequest(method, url, body)`, `none` on success. -/
  newRequestErr : String → String → Option String
  /-- The call `client.Do(req)` together with the latency measured around it. -/
  clientDo : Request → Except String (Response × Int)
  /-- The call `gjson.Get(body, path).String()`. -/
  gjsonGet : String → String → String

/-- How `fmt` prints the standard-library values that occur in messages. -/
structure Printer where
  duration : Int → String
  request : Request → String
  response : Response → String

/-- The method `Error()` of the errors built by the engine. -/
def error.Error (p : Printer) : error → String
  | .unsupportedMethod method => "http method \x27" ++ method ++ "\x27 is not supported"
  | .external msg => msg
  | .statusCode expected received =>
      "status code failure: expected status code " ++ toString expected
        ++ ", but received " ++ toString received
  | .bodyParsing =>
      "body parsing failure: unable to read response body. skipping response body checks"
  | .responseBody path expected got =>
      "response body failure: expected " ++ path ++ " to be " ++ expected
        ++ ", but got " ++ got
  | .debugBody raw => "body for debugging: " ++ raw
  | .debugRequest req => "request for debugging: " ++ p.request req
  | .debugResponse resp => "response for debugging: " ++ p.response resp
  | .latency max actual =>
      "latency failure: expected latency to be below " ++ p.duration max
        ++ ", but it took " ++ p.duration actual

/-! ## `strings.ToUpper` -/

/-- The ASCII branch of `unicode.ToUpper`: `r -= 'a' - 'A'` for `'a' <= r <= 'z'`. -/
def asciiToUpper (r : Char) : Char :=
  if 97 ≤ r.toNat ∧ r.toNat ≤ 122 then Char.ofNat (r.toNat - 32) else r

/-- The function `unicode.ToUpper`. Runes up to `unicode.MaxASCII` take the ASCII
branch. U+0131 (dotless i) and U+017F (long s) are the two non-ASCII runes whose
upper case is an ASCII letter (`I` and `S`); the other runes go through the table. -/
def unicodeToUpper (caseRanges : Char → Char) (r : Char) : Char :=
  if r.toNat ≤ 0x7F then asciiToUpper r
  else if r.toNat = 0x131 then Char.ofNat 0x49
  else if r.toNat = 0x17F then Char.ofNat 0x53
  else caseRanges r

/-- The function `strings.ToUpper`: `unicode.ToUpper` mapped over the runes (its
ASCII-only fast path computes the same string). -/
def stringsToUpper (caseRanges : Char → Char) (s : String) : String :=
  ⟨s.data.map (unicodeToUpper caseRanges)⟩

/-- Upper-casing of the ASCII letters only: the comparison key of an ASCII
case-insensitive comparison. -/
def asciiUpperString (s : String) : String :=
  ⟨s.data.map asciiToUpper⟩

/-! ## `test.validateRequestMethod` (lines 357-364) -/

/-- Validates if the HTTP request method is supported; `none` is Go's `nil`. -/
def test.validateRequestMethod (caseRanges : Char → Char) (t : test) : Option error :=
  let m := stringsToUpper caseRanges t.Request.Method
  if m = "GET" ∨ m = "POST" ∨ m = "PUT" then none
  else some (error.unsupportedMethod t.Request.Method)

/-! ## `url.Values.Encode` and `http.Header.Add` -/

/-- Byte-wise order of two strings, the order `slices.Sort` puts the keys in
(UTF-8 preserves the order of code points). -/
def stringLE : List Char → List Char → Bool
  | [], _ => true
  | _ :: _, [] => false
  | a :: as, b :: bs => a.toNat < b.toNat || (a.toNat == b.toNat && stringLE as bs)

/-- The entries of a map in the order of their sorted keys. -/
def sortedByKey (m : Values) : Values :=
  m.insertionSort (fun x y => stringLE x.1.data y.1.data = true)

/-- The method `url.Values.Encode`: the empty string for a map without entries
(nil or empty), else `key=value` pairs in key order, joined by `&` (written
before every pair but the first, as `buf.Len() > 0` tells). -/
def Values.Encode (queryEscape : String → String) (v : Option Values) : String :=
  match v with
  | none => ""
  | some m =>
    if m.length = 0 then ""
    else
      (sortedByKey m).foldl
        (fun buf kv =>
          kv.2.foldl
            (fun buf x =>
              (if buf.length > 0 then buf ++ "&" else buf)
                ++ queryEscape kv.1 ++ "=" ++ queryEscape x)
            buf)
        ""

/-- The function `validHeaderFieldByte` of `net/textproto`: the token characters
of RFC 7230 (letters, digits and the punctuation listed there). -/
def validHeaderFieldByte (c : Char) : Bool :=
  (48 ≤ c.toNat && c.toNat ≤ 57) || (65 ≤ c.toNat && c.toNat ≤ 90)
    || (97 ≤ c.toNat && c.toNat ≤ 122)
    || [33, 35, 36, 37, 38, 39, 42, 43, 45, 46, 94, 95, 96, 124, 126].contains c.toNat

/-- The canonicalising loop of `canonicalMIMEHeaderKey`: the first letter and
every letter after a dash in upper case, the other letters in lower case. -/
def canonicalLoop : Bool → List Char → List Char
  | _, [] => []
  | upper, c :: cs =>
    let c1 :=
      if upper ∧ 97 ≤ c.toNat ∧ c.toNat ≤ 122 then Char.ofNat (c.toNat - 32)
      else if ¬ upper ∧ 65 ≤ c.toNat ∧ c.toNat ≤ 90 then Char.ofNat (c.toNat + 32)
      else c
    c1 :: canonicalLoop (c1.toNat == 45) cs

/-- The function `textproto.CanonicalMIMEHeaderKey`: a key holding a byte that is
not a token character is returned unchanged. -/
def CanonicalMIMEHeaderKey (s : String) : String :=
  if s.data.all validHeaderFieldByte then ⟨canonicalLoop true s.data⟩ else s

/-- The statement `h[key] = append(h[key], value)` on a map. -/
def mapAppend : Values → String → String → Values
  | [], key, value => [(key, [value])]
  | (k, vs) :: rest, key, value =>
    if k = key then (k, vs ++ [value]) :: rest
    else (k, vs) :: mapAppend rest key value

/-- The method `http.Header.Add`: appends to the values of the canonical key. -/
def Header.Add (h : Values) (key value : String) : Values :=
  mapAppend h (CanonicalMIMEHeaderKey key) value

/-- The values a map holds under a key (`h[key]`, empty when the key is absent). -/
def mapGet : Values → String → List String
  | [], _ => []
  | (k, vs) :: rest, key => if k = key then vs else mapGet rest key

/-! ## The response checker (lines 306-332 and 348-355) -/

/-- Checks if the expected value matches the actual value in the response body. -/
def body.checkResponseBody (gjsonGet : String → String → String) (b : body)
    (raw : String) : Option error :=
  let r := gjsonGet raw b.Path
  if b.ExpectedValue ≠ r then some (error.responseBody b.Path b.ExpectedValue r)
  else none

/-- The method `jet.check`: runs through all the expected response behaviours and
records any that do not match. -/
def jet.check (w : World) (b : jet) (req : Request) (resp : Response) (latency : Int)
    (e : expect) : List error :=
  let errs : List error := []
  let errs :=
    if resp.StatusCode ≠ e.StatusCode then
      errs ++ [error.statusCode e.StatusCode resp.StatusCode]
    else errs
  match resp.Body with
  | none => errs ++ [error.bodyParsing]
  | some raw =>
    let errs :=
      e.Body.foldl
        (fun errs a =>
          match a.checkResponseBody w.gjsonGet raw with
          | some err => errs ++ [err]
          | none => errs)
        errs
    let errs :=
      if errs.length > 0 ∧ b.debug = true then
        errs ++ [error.debugBody raw] ++ [error.debugRequest req]
          ++ [error.debugResponse resp]
      else errs
    let errs :=
      if latency > e.MaxLatency then errs ++ [error.latency e.MaxLatency latency]
      else errs
    errs

/-! ## The request builder and executor (lines 276-304) -/

/-- The calls `jet.run` makes, in the order it makes them. -/
inductive Call where
  /-- The call `http.NewRequest(method, url, strings.NewReader(body))`. -/
  | newRequest (method url payload : String)
  /-- The call `b.client.Do(req)`. -/
  | clientDo (req : Request)
  /-- The call `b.check(req, resp, latency, t.Expect)`. -/
  | check (req : Request) (resp : Response) (latency : Int)
deriving DecidableEq, Repr

/-- The method `jet.run`: makes the API call and checks the response. Returns the
failure list and the calls made on the way. -/
def jet.run (w : World) (b : jet) (t : test) : List error × List Call :=
  match t.validateRequestMethod w.caseRanges with
  | some err => ([err], [])
  | none =>
    let path := b.host ++ t.Request.Path ++ "?" ++ Values.Encode w.queryEscape t.Request.Params
    let method := stringsToUpper w.caseRanges t.Request.Method
    let built := Call.newRequest method path t.Request.Body
    match w.newRequestErr method path with
    | some err => ([error.external err], [built])
    | none =>
      let req : Request := { Method := method, URL := path, Header := [], Body := t.Request.Body }
      let req :=
        match t.Request.Headers with
        | some h => { req with Header := h }
        | none => req
      let req :=
        if t.Request.WithClientID = true then
          { req with Header := Header.Add req.Header "client-id" b.clientID }
        else req
      let req :=
        if t.Request.WithAuthToken = true then
          { req with Header := Header.Add req.Header "Authorization" b.authToken }
        else req
      match w.clientDo req with
      | .error err => ([error.external err], [built, Call.clientDo req])
      | .ok (resp, latency) =>
        (b.check w req resp latency t.Expect,
          [built, Call.clientDo req, Call.check req resp latency])

/-! ## The collector (lines 241-269) -/

/-- The results the tasks launched by `jet.test` send on the channel, one per
test, listed in the order of the tests. -/
def launched (w : World) (b : jet) (ts : List test) : List result :=
  ts.map (fun t => { test := t, errors := (b.run w t).1 })

/-- The collector loop of `jet.test` with `n` iterations left. `arrivals` are the
results still to come on the channel, in arrival order; when none is left the
timer fires and the loop panics (`none`). Console output is not modelled. -/
def collect : Nat → List result → results → Option results
  | 0, _, acc => some acc
  | _ + 1, [], _ => none
  | n + 1, r :: rest, acc =>
    if r.errors.length = 0 then collect n rest { acc with Passed := acc.Passed + 1 }
    else collect n rest { acc with Failed := acc.Failed + 1 }

/-- The method `jet.test`: runs API tests in parallel and returns the results.
The scheduler is the list `arrivals` of results in the order the channel
delivers them. -/
def jet.test (ts : List test) (arrivals : List result) : Option results :=
  collect ts.length arrivals { Passed := 0, Failed := 0, Total := ts.length }


/-- The test of the collector on a received result: `len(r.errors) == 0`. -/
def result.passed (r : result) : Bool := r.errors.length == 0


/-! ## A concrete world: the `/ping` scenarios -/

/-- The call `gjson.Get(body, "status").String()` on the two JSON documents of the
scenarios; any other path or document yields the empty string. -/
def statusField (raw path : String) : String :=
  if path = "status" then
    if raw = "\x7b\"status\":\"ok\"\x7d" then "ok"
    else if raw = "\x7b\"status\":\"down\"\x7d" then "down"
    else ""
  else ""

/-- A world whose server answers every request with the given status code, body
(`none`: the body cannot be read) and latency, and in which every request can be
built. -/
def fixedServer (status : Int) (raw : Option String) (latency : Int) : World where
  caseRanges := fun r => r
  queryEscape := fun s => s
  newRequestErr := fun _ _ => none
  clientDo := fun _ => .ok ({ StatusCode := status, Body := raw }, latency)
  gjsonGet := statusField

/-- A world in which no server answers: every call fails. -/
def noServer : World where
  caseRanges := fun r => r
  queryEscape := fun s => s
  newRequestErr := fun _ _ => none
  clientDo := fun _ => .error "connection refused"
  gjsonGet := statusField

/-- The test of the scenarios: `GET /ping`, expecting 200 within one second and
`status` to be `ok`; the method is a parameter. -/
def pingTest (method : String) : test where
  Name := "ping"
  Request :=
    { Method := method, Path := "/ping", Params := none, Headers := none,
      WithClientID := false, WithAuthToken := false, Body := "" }
  Expect :=
    { StatusCode := 200, MaxLatency := 1000000000,
      Body := [{ Path := "status", ExpectedValue := "ok" }] }

/-- A jet for a local host, with the given debug flag. -/
def localJet (debug : Bool) : jet where
  host := "http://localhost:8080"
  clientID := "cid"
  authToken := "secret"
  debug := debug

/-- The JSON document `{"status":"ok"}`. -/
def okBody : String := "\x7b\"status\":\"ok\"\x7d"

/-- The JSON document `{"status":"down"}`. -/
def downBody : String := "\x7b\"status\":\"down\"\x7d"

/-! ## The request handed to the client -/

/-- The target `jet.run` builds (line 281): `fmt.Sprintf("%s%s?%s", ...)`. -/
def requestTarget (w : World) (b : jet) (t : test) : String :=
  b.host ++ t.Request.Path ++ "?" ++ Values.Encode w.queryEscape t.Request.Params

/-- The request `jet.run` hands to `client.Do` once `http.NewRequest` has
succeeded (lines 282-294), as a function of the test. -/
def builtRequest (w : World) (b : jet) (t : test) : Request where
  Method := stringsToUpper w.caseRanges t.Request.Method
  URL := requestTarget w b t
  Header :=
    if t.Request.WithAuthToken = true then
      Header.Add
        (if t.Request.WithClientID = true then
          Header.Add (t.Request.Headers.getD []) "client-id" b.clientID
        else t.Request.Headers.getD [])
        "Authorization" b.authToken
    else if t.Request.WithClientID = true then
      Header.Add (t.Request.Headers.getD []) "client-id" b.clientID
    else t.Request.Headers.getD []
  Body := t.Request.Body

/-- A world in which `http.NewRequest` fails on every target. -/
def noParse : World where
  caseRanges := fun r => r
  queryEscape := fun s => s
  newRequestErr := fun _ _ => some "invalid URL"
  clientDo := fun _ => .error "connection refused"
  gjsonGet := statusField

/-- A `/ping` test that supplies a `Client-Id` header and a query parameter and
asks for the client id and the token to be added. -/
def headerTest : test where
  Name := "headers"
  Request :=
    { Method := "put", Path := "/ping", Params := some [("q", ["1"])],
      Headers := some [("Client-Id", ["a"])],
      WithClientID := true, WithAuthToken := true, Body := "payload" }
  Expect := { StatusCode := 200, MaxLatency := 1000000000, Body := [] }

/-- A `/ping` test with query parameters under two keys, listed out of key
order, one of them with two values. -/
def queryTest : test where
  Name := "query"
  Request :=
    { Method := "post", Path := "/ping", Params := some [("b", ["1", "2"]), ("a", ["x"])],
      Headers := none, WithClientID := false, WithAuthToken := false, Body := "" }
  Expect := { StatusCode := 200, MaxLatency := 1000000000, Body := [] }

/-- A `/ping` test that supplies a header under the spelling `client-id` and asks
for the client id to be added. -/
def rawKeyTest : test where
  Name := "raw key"
  Request :=
    { Method := "get", Path := "/ping", Params := none,
      Headers := some [("client-id", ["a"])],
      WithClientID := true, WithAuthToken := false, Body := "" }
  Expect := { StatusCode := 200, MaxLatency := 1000000000, Body := [] }

/-! ## The parts of a failure list -/

/-- The status-code entry of a check: present when the codes differ. -/
def statusFailures (status : Int) (e : expect) : List error :=
  if status ≠ e.StatusCode then [error.statusCode e.StatusCode status] else []

/-- The body-value entries of a check: one per assertion whose extracted value
differs from the expected one, in assertion order. -/
def bodyFailures (w : World) (raw : String) (e : expect) : List error :=
  (e.Body.filter (fun a => a.ExpectedValue ≠ w.gjsonGet raw a.Path)).map
    (fun a => error.responseBody a.Path a.ExpectedValue (w.gjsonGet raw a.Path))

/-- The latency entry of a check: present when the latency exceeds the bound. -/
def latencyFailures (latency : Int) (e : expect) : List error :=
  if latency > e.MaxLatency then [error.latency e.MaxLatency latency] else []

/-- The three diagnostic entries of debug mode. -/
def debugDumps (req : Request) (resp : Response) (raw : String) : List error :=
  [error.debugBody raw, error.debugRequest req, error.debugResponse resp]

/-! ## The collector: lemmas -/

theorem collect_eq (n : Nat) : ∀ (rs : List result) (acc : results), n ≤ rs.length →
    collect n rs acc = some
      { Passed := acc.Passed + (rs.take n).countP result.passed,
        Failed := acc.Failed + (rs.take n).countP (fun r => !r.passed),
        Total := acc.Total } := by
  induction n with
  | zero => intro rs acc _; simp [collect]
  | succ n ih =>
    intro rs acc h
    cases rs with
    | nil => simp at h
    | cons r rest =>
      have h1 : n ≤ rest.length := by simpa using h
      by_cases hp : r.errors.length = 0
      · simp only [collect, hp, if_true, ih rest _ h1, List.take_succ_cons, List.countP_cons,
          result.passed, beq_self_eq_true, Bool.not_true, Bool.false_eq_true, if_false]
        simp only [Option.some.injEq, results.mk.injEq]
        exact ⟨by omega, by omega, trivial⟩
      · have hb : (r.errors.length == 0) = false := by simpa using hp
        simp only [collect, hp, if_false, ih rest _ h1, List.take_succ_cons, List.countP_cons,
          result.passed, hb, Bool.not_false, Bool.false_eq_true, if_true]
        simp only [Option.some.injEq, results.mk.injEq]
        exact ⟨by omega, by omega, trivial⟩

theorem collect_none (n : Nat) : ∀ (rs : List result) (acc : results), rs.length < n →
    collect n rs acc = none := by
  induction n with
  | zero => intro rs acc h; simp at h
  | succ n ih =>
    intro rs acc h
    cases rs with
    | nil => simp [collect]
    | cons r rest =>
      have h1 : rest.length < n := by simpa using h
      by_cases hp : r.errors.length = 0 <;> simp [collect, hp, ih rest _ h1]

theorem countP_passed_add (rs : List result) :
    rs.countP result.passed + rs.countP (fun r => !r.passed) = rs.length := by
  induction rs with
  | nil => simp
  | cons r rest ih =>
    by_cases hp : r.passed = true <;> simp [List.countP_cons, hp] <;> omega

theorem test_eq (ts : List test) (rs : List result) (h : rs.length = ts.length) :
    jet.test ts rs = some
      { Passed := rs.countP result.passed,
        Failed := rs.countP (fun r => !r.passed),
        Total := ts.length } := by
  unfold jet.test
  rw [collect_eq _ _ _ (by omega), ← h, List.take_length]
  simp

/-! ## Claims on the collector -/

/-- C1: when every launched task delivers its result (the arrivals are a
permutation of the launched results), `jet.test` returns, with `Total = N`,
`Passed + Failed = N`, `Passed` the number of received results without errors and
`Failed` the number of those with errors; for `N = 0` it returns all zeros. -/
theorem test_totals (w : World) (b : jet) (ts : List test) (arrivals : List result)
    (h : arrivals.Perm (launched w b ts)) :
    ∃ res, jet.test ts arrivals = some res
      ∧ res.Total = ts.length
      ∧ res.Passed + res.Failed = ts.length
      ∧ res.Passed = arrivals.countP (fun r => r.errors.length == 0)
      ∧ res.Failed = arrivals.countP (fun r => !(r.errors.length == 0))
      ∧ res.Passed = (ts.filter (fun t => (b.run w t).1.length == 0)).length
      ∧ (ts = [] → res = { Passed := 0, Failed := 0, Total := 0 }) := by
  have hlen : arrivals.length = ts.length := by
    rw [h.length_eq]; simp [launched]
  refine ⟨_, test_eq ts arrivals hlen, rfl, ?_, rfl, rfl, ?_, ?_⟩
  · have := countP_passed_add arrivals
    simp only [hlen] at this
    exact this
  · show arrivals.countP result.passed = _
    rw [h.countP_eq, launched, List.countP_map, List.countP_eq_length_filter]
    rfl
  · intro hts
    subst hts
    have hnil : arrivals = [] := List.length_eq_zero.mp (by simpa using hlen)
    subst hnil
    rfl

/-- C1, witness: two `/ping` tests against a server answering 503, one of them
with an unsupported method, results arriving in reverse order. -/
theorem test_totals_witness :
    ∃ res,
      jet.test [pingTest "GET", pingTest "DELETE"]
          [⟨pingTest "DELETE", [error.unsupportedMethod "DELETE"]⟩,
            ⟨pingTest "GET",
              [error.statusCode 200 503, error.responseBody "status" "ok" "down"]⟩]
        = some res
      ∧ res.Total = 2 ∧ res.Passed + res.Failed = 2 := by
  obtain ⟨res, h1, h2, h3, _⟩ :=
    test_totals (fixedServer 503 (some downBody) 5) (localJet false)
      [pingTest "GET", pingTest "DELETE"]
      [⟨pingTest "DELETE", [error.unsupportedMethod "DELETE"]⟩,
        ⟨pingTest "GET", [error.statusCode 200 503, error.responseBody "status" "ok" "down"]⟩]
      (by decide)
  exact ⟨res, h1, h2, h3⟩

/-- C2: the counts do not depend on the arrival order: over a list of `N` results
and over any permutation of it the collector of `N` tests returns the same
`Total`, `Passed` and `Failed`; five passing results always give
`{Total: 5, Passed: 5, Failed: 0}`. -/
theorem test_order_independent (ts : List test) (rs rs1 : List result)
    (hp : rs.Perm rs1) (hn : rs.length = ts.length) :
    jet.test ts rs = jet.test ts rs1
      ∧ (∃ res, jet.test ts rs1 = some res)
      ∧ (ts.length = 5 → (∀ r ∈ rs, r.errors = []) →
          jet.test ts rs1 = some { Passed := 5, Failed := 0, Total := 5 }) := by
  have hn1 : rs1.length = ts.length := by rw [← hp.length_eq]; exact hn
  have e1 := test_eq ts rs hn
  have e2 := test_eq ts rs1 hn1
  refine ⟨?_, ⟨_, e2⟩, ?_⟩
  · rw [e1, e2, hp.countP_eq, hp.countP_eq]
  · intro h5 hall
    have hall1 : ∀ r ∈ rs1, r.errors = [] := fun r hr => hall r (hp.mem_iff.mpr hr)
    have hpass : rs1.countP result.passed = rs1.length := by
      rw [List.countP_eq_length]
      intro r hr
      simp [result.passed, hall1 r hr]
    have hsum := countP_passed_add rs1
    rw [e2]
    simp only [Option.some.injEq, results.mk.injEq]
    refine ⟨by omega, by omega, h5⟩

/-- C2, witness: a passing and a failing result, received in either order. -/
theorem test_order_independent_witness :
    jet.test [pingTest "GET", pingTest "PUT"]
        [⟨pingTest "GET", []⟩, ⟨pingTest "PUT", [error.bodyParsing]⟩]
      = jet.test [pingTest "GET", pingTest "PUT"]
        [⟨pingTest "PUT", [error.bodyParsing]⟩, ⟨pingTest "GET", []⟩] :=
  (test_order_independent [pingTest "GET", pingTest "PUT"]
    [⟨pingTest "GET", []⟩, ⟨pingTest "PUT", [error.bodyParsing]⟩]
    [⟨pingTest "PUT", [error.bodyParsing]⟩, ⟨pingTest "GET", []⟩]
    (List.Perm.swap _ _ _) rfl).1

/-! ## Claims on method validation -/

theorem asciiToUpper_ascii (c : Char) (h : (asciiToUpper c).toNat ≤ 0x7F) :
    c.toNat ≤ 0x7F := by
  unfold asciiToUpper at h
  split at h
  · omega
  · exact h

theorem unicodeToUpper_of_ascii (caseRanges : Char → Char) (c : Char)
    (h : c.toNat ≤ 0x7F) : unicodeToUpper caseRanges c = asciiToUpper c := by
  simp [unicodeToUpper, h]

theorem map_unicodeToUpper_of_ascii (caseRanges : Char → Char) (cs : List Char)
    (h : ∀ c ∈ cs, c.toNat ≤ 0x7F) :
    cs.map (unicodeToUpper caseRanges) = cs.map asciiToUpper :=
  List.map_congr_left (fun c hc => unicodeToUpper_of_ascii caseRanges c (h c hc))

theorem stringsToUpper_of_ascii (caseRanges : Char → Char) (s : String)
    (h : ∀ c ∈ s.data, c.toNat ≤ 0x7F) :
    stringsToUpper caseRanges s = asciiUpperString s := by
  simp only [stringsToUpper, asciiUpperString, map_unicodeToUpper_of_ascii caseRanges s.data h]

theorem stringsToUpper_of_asciiUpper (caseRanges : Char → Char) (s u : String)
    (hu : ∀ c ∈ u.data, c.toNat ≤ 0x7F) (h : asciiUpperString s = u) :
    stringsToUpper caseRanges s = u := by
  rw [stringsToUpper_of_ascii caseRanges s, h]
  intro c hc
  apply asciiToUpper_ascii
  apply hu
  rw [← h]
  exact List.mem_map_of_mem _ hc

/-- C3, as stated, fails: the method `poſt` (with U+017F, long s) is not GET, POST
or PUT under ASCII case-insensitive comparison, yet `strings.ToUpper` turns it
into `POST` and the validation succeeds, whatever the case table. -/
theorem validateRequestMethod_long_s :
    asciiUpperString "poſt" ≠ "GET" ∧ asciiUpperString "poſt" ≠ "POST"
      ∧ asciiUpperString "poſt" ≠ "PUT"
      ∧ ∀ caseRanges : Char → Char,
          (pingTest "poſt").validateRequestMethod caseRanges = none := by
  refine ⟨by decide, by decide, by decide, fun caseRanges => ?_⟩
  rfl

/-- C3, amended: validation succeeds for every ASCII casing of GET, POST and PUT;
it fails, with an error whose message names the method exactly as given, for
every method whose upper-casing by `strings.ToUpper` is none of the three, hence
for every ASCII-only method that is none of the three under ASCII
case-insensitive comparison, and for the empty method. -/
theorem validateRequestMethod_upper (caseRanges : Char → Char) (t : test) :
    ((asciiUpperString t.Request.Method = "GET" ∨ asciiUpperString t.Request.Method = "POST"
        ∨ asciiUpperString t.Request.Method = "PUT") →
      t.validateRequestMethod caseRanges = none)
    ∧ (¬ (stringsToUpper caseRanges t.Request.Method = "GET"
          ∨ stringsToUpper caseRanges t.Request.Method = "POST"
          ∨ stringsToUpper caseRanges t.Request.Method = "PUT") →
        t.validateRequestMethod caseRanges
          = some (error.unsupportedMethod t.Request.Method))
    ∧ ((∀ c ∈ t.Request.Method.data, c.toNat ≤ 0x7F) →
        ¬ (asciiUpperString t.Request.Method = "GET"
          ∨ asciiUpperString t.Request.Method = "POST"
          ∨ asciiUpperString t.Request.Method = "PUT") →
        t.validateRequestMethod caseRanges
          = some (error.unsupportedMethod t.Request.Method))
    ∧ (t.Request.Method = "" →
        t.validateRequestMethod caseRanges = some (error.unsupportedMethod ""))
    ∧ (∀ p : Printer, (error.unsupportedMethod t.Request.Method).Error p
        = "http method \x27" ++ t.Request.Method ++ "\x27 is not supported") := by
  refine ⟨?_, ?_, ?_, ?_, fun _ => rfl⟩
  · intro h
    have hup : stringsToUpper caseRanges t.Request.Method = "GET"
        ∨ stringsToUpper caseRanges t.Request.Method = "POST"
        ∨ stringsToUpper caseRanges t.Request.Method = "PUT" := by
      rcases h with h | h | h
      · exact Or.inl (stringsToUpper_of_asciiUpper caseRanges _ _ (by decide) h)
      · exact Or.inr (Or.inl (stringsToUpper_of_asciiUpper caseRanges _ _ (by decide) h))
      · exact Or.inr (Or.inr (stringsToUpper_of_asciiUpper caseRanges _ _ (by decide) h))
    simp only [test.validateRequestMethod, hup, if_true]
  · intro h
    simp only [test.validateRequestMethod, h, if_false]
  · intro hascii h
    rw [← stringsToUpper_of_ascii caseRanges _ hascii] at h
    simp only [test.validateRequestMethod, h, if_false]
  · intro h
    simp only [test.validateRequestMethod, h]
    rfl

/-! ## Claims on the response checker -/

theorem foldl_checkResponseBody (w : World) (raw : String) (as : List body) :
    ∀ init : List error,
      as.foldl
          (fun errs a =>
            match a.checkResponseBody w.gjsonGet raw with
            | some err => errs ++ [err]
            | none => errs)
          init
        = init ++ (as.filter (fun a => a.ExpectedValue ≠ w.gjsonGet raw a.Path)).map
            (fun a => error.responseBody a.Path a.ExpectedValue (w.gjsonGet raw a.Path)) := by
  induction as with
  | nil => intro init; simp
  | cons a rest ih =>
    intro init
    rw [List.foldl_cons, ih]
    by_cases h : a.ExpectedValue = w.gjsonGet raw a.Path
    · simp [body.checkResponseBody, h, List.filter_cons]
    · simp [body.checkResponseBody, h, List.filter_cons]

theorem check_unreadable (w : World) (b : jet) (req : Request) (status latency : Int)
    (e : expect) :
    b.check w req { StatusCode := status, Body := none } latency e
      = statusFailures status e ++ [error.bodyParsing] := by
  unfold jet.check statusFailures
  by_cases h : status = e.StatusCode <;> simp [h]

theorem check_readable (w : World) (b : jet) (req : Request) (status latency : Int)
    (raw : String) (e : expect) :
    b.check w req { StatusCode := status, Body := some raw } latency e
      = (statusFailures status e ++ bodyFailures w raw e)
        ++ (if (statusFailures status e ++ bodyFailures w raw e).length > 0 ∧ b.debug = true
            then debugDumps req { StatusCode := status, Body := some raw } raw else [])
        ++ latencyFailures latency e := by
  unfold jet.check
  simp only [foldl_checkResponseBody, List.nil_append]
  have hs : (if status ≠ e.StatusCode then [error.statusCode e.StatusCode status] else [])
      = statusFailures status e := rfl
  rw [hs]
  show (if latency > e.MaxLatency then _ else _) = _
  unfold latencyFailures bodyFailures debugDumps
  split <;> split <;> simp

theorem append_dumps_eq_nil {α : Type} (m d l : List α) (c : Prop) [Decidable c] :
    (m ++ (if m.length > 0 ∧ c then d else []) ++ l = []) ↔ (m = [] ∧ l = []) := by
  cases m with
  | nil => simp
  | cons x xs => simp

theorem statusFailures_eq_nil (status : Int) (e : expect) :
    statusFailures status e = [] ↔ status = e.StatusCode := by
  unfold statusFailures
  by_cases h : status = e.StatusCode <;> simp [h]

theorem bodyFailures_eq_nil (w : World) (raw : String) (e : expect) :
    bodyFailures w raw e = [] ↔ ∀ a ∈ e.Body, w.gjsonGet raw a.Path = a.ExpectedValue := by
  unfold bodyFailures
  rw [List.map_eq_nil_iff, List.filter_eq_nil_iff]
  constructor
  · intro h a ha
    have := h a ha
    simp only [ne_eq, decide_not, Bool.not_eq_true', decide_eq_false_iff_not,
      not_not] at this
    simpa using this.symm
  · intro h a ha
    simp [h a ha]

theorem latencyFailures_eq_nil (latency : Int) (e : expect) :
    latencyFailures latency e = [] ↔ latency ≤ e.MaxLatency := by
  unfold latencyFailures
  by_cases h : latency > e.MaxLatency
  · simp [h]
  · simp [h]; omega

theorem check_readable_eq_nil (w : World) (b : jet) (req : Request)
    (status latency : Int) (raw : String) (e : expect) :
    b.check w req { StatusCode := status, Body := some raw } latency e = []
      ↔ status = e.StatusCode
        ∧ (∀ a ∈ e.Body, w.gjsonGet raw a.Path = a.ExpectedValue)
        ∧ latency ≤ e.MaxLatency := by
  rw [check_readable, append_dumps_eq_nil, List.append_eq_nil, statusFailures_eq_nil,
    bodyFailures_eq_nil, latencyFailures_eq_nil, and_assoc]

/-- C4: for a response with a readable body the failure list of `jet.check` is
empty exactly when the status code equals the expected one, every body
assertion extracts its expected value and the latency is not above `MaxLatency`;
whether the list is empty, hence whether the test counts as passed, is the same
for both values of the debug flag, for every response. -/
theorem check_empty_iff (w : World) (b : jet) (req : Request) (status latency : Int)
    (raw : String) (e : expect) :
    (b.check w req { StatusCode := status, Body := some raw } latency e = []
      ↔ status = e.StatusCode
        ∧ (∀ a ∈ e.Body, w.gjsonGet raw a.Path = a.ExpectedValue)
        ∧ latency ≤ e.MaxLatency)
    ∧ (∀ (resp : Response) (t : test),
        result.passed ⟨t, jet.check w { b with debug := true } req resp latency e⟩
          = result.passed ⟨t, jet.check w { b with debug := false } req resp latency e⟩) := by
  refine ⟨check_readable_eq_nil w b req status latency raw e, ?_⟩
  intro resp t
  cases resp with
  | mk status1 body1 =>
    cases body1 with
    | none => simp [result.passed, check_unreadable]
    | some raw1 =>
      have h1 := check_readable_eq_nil w { b with debug := true } req status1 latency raw1 e
      have h2 := check_readable_eq_nil w { b with debug := false } req status1 latency raw1 e
      simp only [result.passed]
      rw [Bool.eq_iff_iff]
      simp only [beq_iff_eq, List.length_eq_zero]
      exact h1.trans h2.symm

/-- The length of the failure list with debug on: the three dumps are added
exactly when a status or body-value mismatch was recorded; a latency failure,
recorded after the dumps, does not bring them. -/
theorem check_debug_length (w : World) (b : jet) (req : Request) (status latency : Int)
    (raw : String) (e : expect) (hd : b.debug = true) :
    (b.check w req { StatusCode := status, Body := some raw } latency e).length
      = ((statusFailures status e).length + (bodyFailures w raw e).length
          + (latencyFailures latency e).length)
        + (if (statusFailures status e).length + (bodyFailures w raw e).length > 0
            then 3 else 0) := by
  rw [check_readable]
  by_cases h : (statusFailures status e).length + (bodyFailures w raw e).length > 0
  · simp [h, hd, debugDumps]
    omega
  · simp [h, hd]
    omega

/-- C5 at a latency-only failure with debug on: status and body match, the
latency is five seconds against a bound of one; the failure list is the latency
entry alone, of length 1 and not 1 + 3. -/
theorem check_debug_latency_only :
    (localJet true).check (fixedServer 200 (some okBody) 5000000000)
        { Method := "GET", URL := "http://localhost:8080/ping?", Header := [], Body := "" }
        { StatusCode := 200, Body := some okBody } 5000000000 (pingTest "GET").Expect
      = [error.latency 1000000000 5000000000] := by
  decide

/-- C6: when the body cannot be read, the failure list is the status-mismatch
entry, if the status code differs, followed by one body-read entry, which is
the last; no body-value, latency or debug entry is appended, whatever the
expectation, the latency and the debug flag. -/
theorem check_unreadable_body (w : World) (b : jet) (req : Request)
    (status latency : Int) (e : expect) :
    b.check w req { StatusCode := status, Body := none } latency e
        = (if status ≠ e.StatusCode then [error.statusCode e.StatusCode status] else [])
          ++ [error.bodyParsing]
      ∧ (b.check w req { StatusCode := status, Body := none } latency e).getLast?
        = some error.bodyParsing
      ∧ (b.check w req { StatusCode := status, Body := none } latency e).count
          error.bodyParsing = 1
      ∧ (∀ x ∈ b.check w req { StatusCode := status, Body := none } latency e,
          x = error.bodyParsing
            ∨ (status ≠ e.StatusCode ∧ x = error.statusCode e.StatusCode status)) := by
  rw [check_unreadable]
  unfold statusFailures
  by_cases h : status = e.StatusCode
  · simp [h]
  · simp [h]

/-- C7: with debug off and a readable body, the failure list is exactly the
status-mismatch entry if the status code differs, then one body-value entry
(path, expected, actual) per assertion whose extracted value differs from the
expected one, in assertion order, then the latency entry if and only if the
latency is strictly above `MaxLatency`. Expecting 200 and `status = ok`, a 503
answer with `status` being `down` within the bound gives the status entry
followed by the body-value entry. -/
theorem check_no_debug (w : World) (b : jet) (req : Request) (status latency : Int)
    (raw : String) (e : expect) (hd : b.debug = false) :
    b.check w req { StatusCode := status, Body := some raw } latency e
        = (if status ≠ e.StatusCode then [error.statusCode e.StatusCode status] else [])
          ++ (e.Body.filter (fun a => a.ExpectedValue ≠ w.gjsonGet raw a.Path)).map
              (fun a => error.responseBody a.Path a.ExpectedValue (w.gjsonGet raw a.Path))
          ++ (if latency > e.MaxLatency then [error.latency e.MaxLatency latency] else [])
      ∧ (error.latency e.MaxLatency latency
            ∈ b.check w req { StatusCode := status, Body := some raw } latency e
          ↔ latency > e.MaxLatency)
      ∧ (∀ max : Int, latency ≤ max → w.gjsonGet raw "status" = "down" →
          b.check w req { StatusCode := 503, Body := some raw } latency
              { StatusCode := 200, MaxLatency := max,
                Body := [{ Path := "status", ExpectedValue := "ok" }] }
            = [error.statusCode 200 503, error.responseBody "status" "ok" "down"]) := by
  have hgen : ∀ (status1 : Int) (e1 : expect),
      b.check w req { StatusCode := status1, Body := some raw } latency e1
        = statusFailures status1 e1 ++ bodyFailures w raw e1 ++ latencyFailures latency e1 := by
    intro status1 e1
    rw [check_readable]
    simp [hd]
  refine ⟨hgen status e, ?_, ?_⟩
  · rw [hgen]
    unfold statusFailures bodyFailures latencyFailures
    by_cases hl : latency > e.MaxLatency
    · simp [hl]
    · simp only [hl, if_false, List.append_nil, List.mem_append, List.mem_map, iff_false]
      rintro (h | ⟨a, _, h⟩)
      · split at h <;> simp at h
      · simp at h
  · intro max hmax hget
    rw [hgen]
    have hl : ¬ latency > max := by omega
    simp [statusFailures, bodyFailures, latencyFailures, hget, hl]

/-- C7, witness: the `/ping` test against a server answering 503 with `status`
being `down`, debug off. -/
theorem check_no_debug_witness :
    (localJet false).check (fixedServer 503 (some downBody) 5)
        { Method := "GET", URL := "http://localhost:8080/ping?", Header := [], Body := "" }
        { StatusCode := 503, Body := some downBody } 5 (pingTest "GET").Expect
      = [error.statusCode 200 503, error.responseBody "status" "ok" "down"] :=
  ((check_no_debug (fixedServer 503 (some downBody) 5) (localJet false)
      { Method := "GET", URL := "http://localhost:8080/ping?", Header := [], Body := "" }
      503 5 downBody (pingTest "GET").Expect rfl).2.2 1000000000 (by decide) (by decide))

/-! ## Claims on the request builder and executor -/

theorem mapGet_mapAppend_self (h : Values) (key value : String) :
    mapGet (mapAppend h key value) key = mapGet h key ++ [value] := by
  induction h with
  | nil => simp [mapAppend, mapGet]
  | cons kv rest ih =>
    obtain ⟨k, vs⟩ := kv
    by_cases hk : k = key
    · simp [mapAppend, mapGet, hk]
    · simp [mapAppend, mapGet, hk, ih]

theorem mapGet_mapAppend_other (h : Values) (key value other : String)
    (hne : other ≠ key) :
    mapGet (mapAppend h key value) other = mapGet h other := by
  induction h with
  | nil => simp [mapAppend, mapGet, hne.symm]
  | cons kv rest ih =>
    obtain ⟨k, vs⟩ := kv
    by_cases hk : k = key
    · subst hk
      simp [mapAppend, mapGet, hne.symm]
    · by_cases ho : k = other
      · subst ho
        simp [mapAppend, mapGet, hk]
      · simp [mapAppend, mapGet, hk, ho, ih]

theorem run_invalid (w : World) (b : jet) (t : test) (err : error)
    (hv : t.validateRequestMethod w.caseRanges = some err) :
    b.run w t = ([err], []) := by
  unfold jet.run
  simp only [hv]

theorem run_unbuilt (w : World) (b : jet) (t : test) (msg : String)
    (hv : t.validateRequestMethod w.caseRanges = none)
    (hn : w.newRequestErr (stringsToUpper w.caseRanges t.Request.Method)
      (requestTarget w b t) = some msg) :
    b.run w t = ([error.external msg],
      [Call.newRequest (stringsToUpper w.caseRanges t.Request.Method)
        (requestTarget w b t) t.Request.Body]) := by
  unfold requestTarget at hn
  unfold jet.run
  simp only [hv, hn, requestTarget]

theorem run_built (w : World) (b : jet) (t : test)
    (hv : t.validateRequestMethod w.caseRanges = none)
    (hn : w.newRequestErr (stringsToUpper w.caseRanges t.Request.Method)
      (requestTarget w b t) = none) :
    b.run w t =
      match w.clientDo (builtRequest w b t) with
      | .error err =>
        ([error.external err],
          [Call.newRequest (stringsToUpper w.caseRanges t.Request.Method)
            (requestTarget w b t) t.Request.Body, Call.clientDo (builtRequest w b t)])
      | .ok (resp, latency) =>
        (b.check w (builtRequest w b t) resp latency t.Expect,
          [Call.newRequest (stringsToUpper w.caseRanges t.Request.Method)
            (requestTarget w b t) t.Request.Body, Call.clientDo (builtRequest w b t),
            Call.check (builtRequest w b t) resp latency]) := by
  unfold requestTarget at hn
  unfold jet.run
  simp only [hv, hn]
  cases hh : t.Request.Headers <;> cases hc : t.Request.WithClientID <;>
    cases ha : t.Request.WithAuthToken <;>
    simp [builtRequest, requestTarget, hh, hc, ha]

/-- C8: when method validation fails, when `http.NewRequest` fails, or when
`client.Do` fails, `jet.run` returns exactly that one error and never calls
`jet.check`; for an unsupported method it calls neither `http.NewRequest` nor
`client.Do`. Such a result is counted as failed by the collector, which goes
on with the remaining results, and `jet.test` still returns with `Total = N`. -/
theorem run_single_failure (w : World) (b : jet) (t : test) :
    (∀ err, t.validateRequestMethod w.caseRanges = some err → b.run w t = ([err], []))
    ∧ (∀ msg, t.validateRequestMethod w.caseRanges = none →
        w.newRequestErr (stringsToUpper w.caseRanges t.Request.Method)
            (b.host ++ t.Request.Path ++ "?"
              ++ Values.Encode w.queryEscape t.Request.Params) = some msg →
        b.run w t = ([error.external msg],
          [Call.newRequest (stringsToUpper w.caseRanges t.Request.Method)
            (b.host ++ t.Request.Path ++ "?" ++ Values.Encode w.queryEscape t.Request.Params)
            t.Request.Body]))
    ∧ (∀ req msg, Call.clientDo req ∈ (b.run w t).2 → w.clientDo req = .error msg →
        b.run w t = ([error.external msg],
          [Call.newRequest (stringsToUpper w.caseRanges t.Request.Method)
            (b.host ++ t.Request.Path ++ "?" ++ Values.Encode w.queryEscape t.Request.Params)
            t.Request.Body, Call.clientDo req]))
    ∧ (∀ err, (b.run w t).1 = [err] →
        (∀ (n : Nat) (rest : List result) (acc : results),
          collect (n + 1) (⟨t, (b.run w t).1⟩ :: rest) acc
            = collect n rest { acc with Failed := acc.Failed + 1 })
        ∧ (∀ (ts : List test) (arrivals : List result), t ∈ ts →
            arrivals.Perm (launched w b ts) →
            ∃ res, jet.test ts arrivals = some res ∧ res.Total = ts.length
              ∧ 1 ≤ res.Failed ∧ res.Passed + res.Failed = ts.length)) := by
  refine ⟨fun err hv => run_invalid w b t err hv,
    fun msg hv hn => run_unbuilt w b t msg hv hn, ?_, ?_⟩
  · intro req msg hmem hdo
    cases hv : t.validateRequestMethod w.caseRanges with
    | some err =>
      rw [run_invalid w b t err hv] at hmem
      simp at hmem
    | none =>
      cases hn : w.newRequestErr (stringsToUpper w.caseRanges t.Request.Method)
          (requestTarget w b t) with
      | some m1 =>
        rw [run_unbuilt w b t m1 hv hn] at hmem
        simp at hmem
      | none =>
        have hrun := run_built w b t hv hn
        cases hd : w.clientDo (builtRequest w b t) with
        | error e1 =>
          rw [hd] at hrun
          simp only at hrun
          rw [hrun] at hmem ⊢
          simp at hmem
          subst hmem
          rw [hd] at hdo
          cases hdo
          rfl
        | ok pr =>
          obtain ⟨resp, latency⟩ := pr
          rw [hd] at hrun
          simp only at hrun
          rw [hrun] at hmem
          simp at hmem
          subst hmem
          rw [hd] at hdo
          cases hdo
  · intro err herr
    constructor
    · intro n rest acc
      simp [collect, herr]
    · intro ts arrivals hts hperm
      have hlen : arrivals.length = ts.length := by
        rw [hperm.length_eq]; simp [launched]
      have hsum := countP_passed_add arrivals
      refine ⟨_, test_eq ts arrivals hlen, rfl, ?_, by simpa [hlen] using hsum⟩
      show 0 < arrivals.countP (fun r => !r.passed)
      rw [hperm.countP_eq, List.countP_pos_iff]
      refine ⟨⟨t, (b.run w t).1⟩, ?_, ?_⟩
      · exact List.mem_map_of_mem _ hts
      · simp [result.passed, herr]

/-- C8, witness: a `DELETE` test is rejected without any call, and it is counted
as failed next to a passing test. -/
theorem run_single_failure_witness :
    (localJet false).run (fixedServer 200 (some okBody) 5) (pingTest "DELETE")
        = ([error.unsupportedMethod "DELETE"], [])
      ∧ (localJet false).run noParse (pingTest "get")
        = ([error.external "invalid URL"],
            [Call.newRequest "GET" "http://localhost:8080/ping?" ""])
      ∧ (localJet false).run noServer (pingTest "get")
        = ([error.external "connection refused"],
            [Call.newRequest "GET" "http://localhost:8080/ping?" "",
              Call.clientDo
                { Method := "GET", URL := "http://localhost:8080/ping?", Header := [],
                  Body := "" }]) :=
  ⟨(run_single_failure (fixedServer 200 (some okBody) 5) (localJet false)
      (pingTest "DELETE")).1 _ (by decide),
    (run_single_failure noParse (localJet false) (pingTest "get")).2.1 _ (by decide)
      (by decide),
    (run_single_failure noServer (localJet false) (pingTest "get")).2.2.1 _ _ (by decide)
      rfl⟩

theorem run_calls_valid (w : World) (b : jet) (t : test)
    (hv : t.validateRequestMethod w.caseRanges = none) :
    ∃ rest, (b.run w t).2
        = Call.newRequest (stringsToUpper w.caseRanges t.Request.Method)
            (requestTarget w b t) t.Request.Body :: rest
      ∧ (∀ req, Call.clientDo req ∈ rest → req = builtRequest w b t)
      ∧ (w.newRequestErr (stringsToUpper w.caseRanges t.Request.Method)
            (requestTarget w b t) = none →
          ∃ tail, rest = Call.clientDo (builtRequest w b t) :: tail
            ∧ ∀ req, Call.clientDo req ∉ tail) := by
  cases hn : w.newRequestErr (stringsToUpper w.caseRanges t.Request.Method)
      (requestTarget w b t) with
  | some m1 =>
    rw [run_unbuilt w b t m1 hv hn]
    exact ⟨[], rfl, by simp, by simp⟩
  | none =>
    rw [run_built w b t hv hn]
    cases hd : w.clientDo (builtRequest w b t) with
    | error e1 => exact ⟨_, rfl, by simp, fun _ => ⟨[], rfl, by simp⟩⟩
    | ok pr => exact ⟨_, rfl, by simp, fun _ => ⟨_, rfl, by simp⟩⟩

/-! ### The encoding of the query parameters -/

theorem stringLE_total : ∀ a b : List Char, stringLE a b = true ∨ stringLE b a = true := by
  intro a
  induction a with
  | nil => intro b; simp [stringLE]
  | cons x xs ih =>
    intro b
    cases b with
    | nil => simp [stringLE]
    | cons y ys =>
      simp only [stringLE, Bool.or_eq_true, Bool.and_eq_true, decide_eq_true_eq, beq_iff_eq]
      rcases Nat.lt_trichotomy x.toNat y.toNat with h | h | h
      · exact Or.inl (Or.inl h)
      · rcases ih ys with h1 | h1
        · exact Or.inl (Or.inr ⟨h, h1⟩)
        · exact Or.inr (Or.inr ⟨h.symm, h1⟩)
      · exact Or.inr (Or.inl h)

theorem stringLE_trans : ∀ a b c : List Char,
    stringLE a b = true → stringLE b c = true → stringLE a c = true := by
  intro a
  induction a with
  | nil => intro b c _ _; simp [stringLE]
  | cons x xs ih =>
    intro b c hab hbc
    cases b with
    | nil => simp [stringLE] at hab
    | cons y ys =>
      cases c with
      | nil => simp [stringLE] at hbc
      | cons z zs =>
        simp only [stringLE, Bool.or_eq_true, Bool.and_eq_true, decide_eq_true_eq,
          beq_iff_eq] at hab hbc ⊢
        rcases hab with h1 | ⟨h1, h2⟩
        · rcases hbc with h3 | ⟨h3, _⟩
          · exact Or.inl (by omega)
          · exact Or.inl (by omega)
        · rcases hbc with h3 | ⟨h3, h4⟩
          · exact Or.inl (by omega)
          · exact Or.inr ⟨by omega, ih ys zs h2 h4⟩

theorem sortedByKey_perm (m : Values) : (sortedByKey m).Perm m :=
  List.perm_insertionSort _ m

theorem sortedByKey_sorted (m : Values) :
    (sortedByKey m).Pairwise (fun x y => stringLE x.1.data y.1.data = true) := by
  haveI : IsTotal (String × List String) (fun x y => stringLE x.1.data y.1.data = true) :=
    ⟨fun x y => stringLE_total x.1.data y.1.data⟩
  haveI : IsTrans (String × List String) (fun x y => stringLE x.1.data y.1.data = true) :=
    ⟨fun x y z => stringLE_trans x.1.data y.1.data z.1.data⟩
  exact List.sorted_insertionSort _ m

theorem intercalate_go_eq_foldl (sep : String) (ps : List String) :
    ∀ acc : String, String.intercalate.go acc sep ps
      = ps.foldl (fun buf p => buf ++ sep ++ p) acc := by
  induction ps with
  | nil => intro acc; rfl
  | cons p ps ih => intro acc; simp [String.intercalate.go, ih]

theorem foldl_write_nonempty (ps : List String) (hps : ∀ p ∈ ps, 0 < p.length) :
    ∀ buf : String, 0 < buf.length →
      ps.foldl (fun buf p => (if buf.length > 0 then buf ++ "&" else buf) ++ p) buf
        = ps.foldl (fun buf p => buf ++ "&" ++ p) buf := by
  induction ps with
  | nil => intro buf _; rfl
  | cons p ps ih =>
    intro buf hb
    simp only [List.foldl_cons, hb, gt_iff_lt, if_true]
    apply ih (fun q hq => hps q (List.mem_cons_of_mem _ hq))
    simp only [String.length_append]
    omega

theorem foldl_write_eq_intercalate (ps : List String) (hps : ∀ p ∈ ps, 0 < p.length) :
    ps.foldl (fun buf p => (if buf.length > 0 then buf ++ "&" else buf) ++ p) ""
      = "&".intercalate ps := by
  cases ps with
  | nil => rfl
  | cons p ps =>
    have hp : 0 < p.length := hps p (List.mem_cons_self _ _)
    simp only [List.foldl_cons, String.intercalate, intercalate_go_eq_foldl]
    have h0 : ¬ ("".length > 0) := by decide
    simp only [h0, if_false, String.empty_append]
    exact foldl_write_nonempty ps (fun q hq => hps q (List.mem_cons_of_mem _ hq)) p hp

theorem foldl_pairs (esc : String → String) (sorted : Values) :
    ∀ init : String,
      sorted.foldl
          (fun buf kv =>
            kv.2.foldl
              (fun buf x =>
                (if buf.length > 0 then buf ++ "&" else buf) ++ esc kv.1 ++ "=" ++ esc x)
              buf)
          init
        = (sorted.flatMap (fun kv => kv.2.map (fun x => esc kv.1 ++ "=" ++ esc x))).foldl
            (fun buf p => (if buf.length > 0 then buf ++ "&" else buf) ++ p) init := by
  induction sorted with
  | nil => intro init; rfl
  | cons kv rest ih =>
    intro init
    simp only [List.foldl_cons, List.flatMap_cons, List.foldl_append, List.foldl_map]
    rw [ih]
    simp only [String.append_assoc]

theorem encode_eq_intercalate (esc : String → String) (m : Values) :
    Values.Encode esc (some m)
      = "&".intercalate
          ((sortedByKey m).flatMap (fun kv => kv.2.map (fun x => esc kv.1 ++ "=" ++ esc x))) := by
  unfold Values.Encode
  by_cases h : m.length = 0
  · have hm : m = [] := List.length_eq_zero.mp h
    subst hm
    rfl
  · simp only [h, if_false]
    rw [foldl_pairs, foldl_write_eq_intercalate]
    intro p hp
    simp only [List.mem_flatMap, List.mem_map] at hp
    obtain ⟨kv, _, x, _, rfl⟩ := hp
    simp only [String.length_append]
    have : "=".length = 1 := by decide
    omega

/-- C9: for a test whose method is valid, the target `jet.run` passes to
`http.NewRequest` is `host + path + "?" + query` and the method is the
upper-cased test method; a request handed to `client.Do` carries both. The
query is the encoding of the parameters: the pairs `escape(key)=escape(value)`
of all values of all keys, keys in byte-wise order, joined by `&`; with an empty
or absent parameter set it is empty and the target ends in the question mark. -/
theorem run_target (w : World) (b : jet) (t : test)
    (hv : t.validateRequestMethod w.caseRanges = none) :
    ∃ query rest,
      (b.run w t).2
          = Call.newRequest (stringsToUpper w.caseRanges t.Request.Method)
              (b.host ++ t.Request.Path ++ "?" ++ query) t.Request.Body :: rest
        ∧ (∀ req, Call.clientDo req ∈ rest →
            req.Method = stringsToUpper w.caseRanges t.Request.Method
              ∧ req.URL = b.host ++ t.Request.Path ++ "?" ++ query)
        ∧ query = Values.Encode w.queryEscape t.Request.Params
        ∧ ((t.Request.Params = none ∨ t.Request.Params = some []) →
            query = ""
              ∧ b.host ++ t.Request.Path ++ "?" ++ query = b.host ++ t.Request.Path ++ "?")
        ∧ (∀ m, t.Request.Params = some m →
            ∃ sorted : Values,
              sorted.Perm m
                ∧ sorted.Pairwise (fun x y => stringLE x.1.data y.1.data = true)
                ∧ query = "&".intercalate
                    (sorted.flatMap (fun kv =>
                      kv.2.map (fun x => w.queryEscape kv.1 ++ "=" ++ w.queryEscape x)))) := by
  obtain ⟨rest, hrest, hreq, _⟩ := run_calls_valid w b t hv
  refine ⟨Values.Encode w.queryEscape t.Request.Params, rest, hrest, ?_, rfl, ?_, ?_⟩
  · intro req hmem
    rw [hreq req hmem]
    exact ⟨rfl, rfl⟩
  · rintro (h | h) <;> simp [h, Values.Encode]
  · intro m hm
    refine ⟨sortedByKey m, sortedByKey_perm m, sortedByKey_sorted m, ?_⟩
    rw [hm, encode_eq_intercalate]

/-- C9, witness: `POST /ping` with the parameters `b = 1, 2` and `a = x` is
requested at `http://localhost:8080/ping?a=x&b=1&b=2`. -/
theorem run_target_witness :
    ∃ rest, ((localJet false).run (fixedServer 200 (some okBody) 5) queryTest).2
      = Call.newRequest "POST" "http://localhost:8080/ping?a=x&b=1&b=2" "" :: rest := by
  obtain ⟨query, rest, h1, _, hq, _⟩ :=
    run_target (fixedServer 200 (some okBody) 5) (localJet false) queryTest (by decide)
  have hval : query = "a=x&b=1&b=2" := by rw [hq]; decide
  subst hval
  exact ⟨rest, h1⟩

/-- C10, as stated, fails: for supplied headers `client-id: a` with `WithClientID`
set, the request carries `client-id: a` and `Client-Id: cid` as two entries;
the client id is not appended after the value already present under
`client-id`, which keeps the single value `a`. -/
theorem run_headers_raw_key :
    ∃ req tail,
      ((localJet false).run (fixedServer 200 (some okBody) 5) rawKeyTest).2
          = Call.newRequest "GET" "http://localhost:8080/ping?" ""
              :: Call.clientDo req :: tail
        ∧ req.Header = [("client-id", ["a"]), ("Client-Id", ["cid"])]
        ∧ mapGet req.Header "client-id" = ["a"]
        ∧ mapGet req.Header "Client-Id" = ["cid"] :=
  ⟨{ Method := "GET", URL := "http://localhost:8080/ping?",
      Header := [("client-id", ["a"]), ("Client-Id", ["cid"])], Body := "" },
    [Call.check
      { Method := "GET", URL := "http://localhost:8080/ping?",
        Header := [("client-id", ["a"]), ("Client-Id", ["cid"])], Body := "" }
      { StatusCode := 200, Body := some okBody } 5],
    by decide, rfl, by decide, by decide⟩

/-- C10, amended: for a test whose request can be built, the headers of the
request handed to `client.Do` are the supplied header map when it is not nil,
else the empty map; then, if `WithClientID` is set, with `config.clientID`
appended to the values of the canonical key `Client-Id`, after the values
already present under that key; then, if `WithAuthToken` is set, with
`config.authToken` appended likewise under `Authorization`. Every entry under
another key, another spelling of the header name included, is left as it was.
With neither flag set the headers are the supplied headers verbatim. -/
theorem run_headers (w : World) (b : jet) (t : test)
    (hv : t.validateRequestMethod w.caseRanges = none)
    (hn : w.newRequestErr (stringsToUpper w.caseRanges t.Request.Method)
      (b.host ++ t.Request.Path ++ "?" ++ Values.Encode w.queryEscape t.Request.Params)
        = none) :
    (∃ req tail,
      (b.run w t).2
          = Call.newRequest (stringsToUpper w.caseRanges t.Request.Method)
              (b.host ++ t.Request.Path ++ "?"
                ++ Values.Encode w.queryEscape t.Request.Params)
              t.Request.Body :: Call.clientDo req :: tail
        ∧ (∀ r, Call.clientDo r ∉ tail)
        ∧ (let supplied := match t.Request.Headers with
              | some h => h
              | none => []
           let withID :=
            if t.Request.WithClientID = true then Header.Add supplied "client-id" b.clientID
            else supplied
           let withToken :=
            if t.Request.WithAuthToken = true then
              Header.Add withID "Authorization" b.authToken
            else withID
           req.Header = withToken)
        ∧ (t.Request.WithClientID = false → t.Request.WithAuthToken = false →
            ∀ h, t.Request.Headers = some h → req.Header = h))
    ∧ (∀ (h : Values) (v : String),
        mapGet (Header.Add h "client-id" v) "Client-Id" = mapGet h "Client-Id" ++ [v]
          ∧ ∀ k, k ≠ "Client-Id" → mapGet (Header.Add h "client-id" v) k = mapGet h k)
    ∧ (∀ (h : Values) (v : String),
        mapGet (Header.Add h "Authorization" v) "Authorization"
            = mapGet h "Authorization" ++ [v]
          ∧ ∀ k, k ≠ "Authorization" →
              mapGet (Header.Add h "Authorization" v) k = mapGet h k) := by
  refine ⟨?_, ?_, ?_⟩
  · obtain ⟨rest, hrest, _, hbuilt⟩ := run_calls_valid w b t hv
    obtain ⟨tail, htail, hno⟩ := hbuilt hn
    refine ⟨builtRequest w b t, tail, ?_, hno, ?_, ?_⟩
    · rw [hrest, htail]
      rfl
    · cases hh : t.Request.Headers <;> cases hc : t.Request.WithClientID <;>
        cases ha : t.Request.WithAuthToken <;> simp [builtRequest, hh, hc, ha]
    · intro hc ha h hh
      simp [builtRequest, hh, hc, ha]
  · intro h v
    have hk : CanonicalMIMEHeaderKey "client-id" = "Client-Id" := by decide
    exact ⟨by rw [Header.Add, hk, mapGet_mapAppend_self],
      fun k hne => by rw [Header.Add, hk, mapGet_mapAppend_other _ _ _ _ hne]⟩
  · intro h v
    have hk : CanonicalMIMEHeaderKey "Authorization" = "Authorization" := by decide
    exact ⟨by rw [Header.Add, hk, mapGet_mapAppend_self],
      fun k hne => by rw [Header.Add, hk, mapGet_mapAppend_other _ _ _ _ hne]⟩

/-- C10, witness: a test supplying `Client-Id: a` with both flags set sends
`Client-Id: a, cid` and `Authorization: secret`. -/
theorem run_headers_witness :
    ∃ req tail,
      ((localJet false).run (fixedServer 200 (some okBody) 5) headerTest).2
          = Call.newRequest "PUT" "http://localhost:8080/ping?q=1" "payload"
              :: Call.clientDo req :: tail
        ∧ req.Header = [("Client-Id", ["a", "cid"]), ("Authorization", ["secret"])] := by
  obtain ⟨req, tail, h1, _, h3, _⟩ :=
    (run_headers (fixedServer 200 (some okBody) 5) (localJet false) headerTest
      (by decide) (by decide)).1
  exact ⟨req, tail, h1, h3⟩

end JetTest
